import Mathlib

/-!
# Bulk email sender: the submission pipeline of `frontend/src/App.js`

A shallow embedding of the React component `App`: its state, its event
handlers and the library operations they use (`String.prototype.split`,
`trim`, `RegExp.prototype.test`, `Array.prototype.join`, `Set`, `parseInt`).

Conventions of the embedding.

* A JavaScript string is a `List Char`.
* A handler is a function of the component state captured by the closure of
  the render in which the handler was created.  Reading a state variable in
  the handler reads that captured state; a `setX(v)` call overwrites the
  field in the state that the next render shows.
* The outcome of a request is an argument of the handler: `none` is a
  rejected request, `some r` a response with body `r`.
* Every request, toast and console line a handler issues is recorded, in
  order, in a list of effects.
* A JavaScript number that holds an integer is given by that integer; sums
  and parsed values are rounded to the nearest double, and numbers are printed
  as `Number::toString` prints them.
-/

namespace BulkEmail

/-- JavaScript string, as the list of its characters. -/
abbrev Str := List Char

/-! ## Character classes -/

/-- White space and line terminators of ECMAScript: the characters removed by
`String.prototype.trim` and matched by `\s` in a regular expression. -/
def isWhiteSpace (c : Char) : Bool :=
  let n := c.toNat
  n = 0x09 || n = 0x0A || n = 0x0B || n = 0x0C || n = 0x0D || n = 0x20 ||
  n = 0xA0 || n = 0x1680 || (0x2000 ≤ n && n ≤ 0x200A) ||
  n = 0x2028 || n = 0x2029 || n = 0x202F || n = 0x205F || n = 0x3000 || n = 0xFEFF

/-! ## String operations -/

/-- The method `String.prototype.trim`: white space removed at both ends. -/
def trim (s : Str) : Str :=
  ((s.dropWhile isWhiteSpace).reverse.dropWhile isWhiteSpace).reverse

/-- The method `String.prototype.split` with a one-character separator: the
pieces between the occurrences of `sep`; a string with `n` separators has
`n + 1` pieces, so the empty string has the single piece `""`. -/
def split (sep : Char) : Str → List Str
  | [] => [[]]
  | c :: cs =>
    if c = sep then [] :: split sep cs
    else
      match split sep cs with
      | [] => [[c]]
      | p :: ps => (c :: p) :: ps

/-- The method `Array.prototype.join` on an array of strings. -/
def join (sep : Str) (xs : List Str) : Str :=
  sep.intercalate xs

/-! ## Regular expressions -/

/-- Regular expressions over characters, with character classes given by a
predicate. -/
inductive Regex where
  | empty : Regex
  | eps : Regex
  | cls : (Char → Bool) → Regex
  | seq : Regex → Regex → Regex
  | alt : Regex → Regex → Regex
  | star : Regex → Regex

namespace Regex

/-- One or more repetitions, the operator `+`. -/
def plus (r : Regex) : Regex := seq r (star r)

/-- A literal character. -/
def chr (c : Char) : Regex := cls (fun d => d == c)

/-- Whether the expression matches the empty string. -/
def nullable : Regex → Bool
  | empty => false
  | eps => true
  | cls _ => false
  | seq a b => nullable a && nullable b
  | alt a b => nullable a || nullable b
  | star _ => true

/-- Brzozowski derivative: what remains to be matched after reading `c`. -/
def deriv : Regex → Char → Regex
  | empty, _ => empty
  | eps, _ => empty
  | cls p, c => if p c then eps else empty
  | seq a b, c =>
    if nullable a then alt (seq (deriv a c) b) (deriv b c) else seq (deriv a c) b
  | alt a b, c => alt (deriv a c) (deriv b c)
  | star a, c => seq (deriv a c) (star a)

/-- The method `RegExp.prototype.test` for an expression anchored at both ends
(`^...$`): the whole string is matched. -/
def test (r : Regex) (s : Str) : Bool :=
  nullable (s.foldl deriv r)

end Regex

/-- The class `[^\s@]`: neither white space nor `@`. -/
def notSpaceAt (c : Char) : Bool :=
  !(isWhiteSpace c || c == '@')

/-- The constant `emailRegex = /^[^\s@]+@[^\s@]+\.[^\s@]+$/`. -/
def emailRegex : Regex :=
  .seq (.plus (.cls notSpaceAt))
    (.seq (.chr '@')
      (.seq (.plus (.cls notSpaceAt))
        (.seq (.chr '.') (.plus (.cls notSpaceAt)))))

/-- Every character class of the expression rejects white space. -/
def Regex.noSpace : Regex → Prop
  | .empty => True
  | .eps => True
  | .cls p => ∀ c, isWhiteSpace c = true → p c = false
  | .seq a b => a.noSpace ∧ b.noSpace
  | .alt a b => a.noSpace ∧ b.noSpace
  | .star a => a.noSpace

/-- A sufficient syntactic test for an expression that matches no string. -/
def Regex.dead : Regex → Bool
  | .empty => true
  | .eps => false
  | .cls _ => false
  | .seq a b => a.dead || b.dead
  | .alt a b => a.dead && b.dead
  | .star _ => false

/-! ## Numbers -/

/-- The spacing of the doubles around `m`, searched upwards from `q`: the first
`q`, doubling at each step, with `m / q < 2 ^ 53`. -/
def ulpFrom : Nat → Nat → Nat → Nat
  | 0, _, q => q
  | fuel + 1, m, q => if m / q < 2 ^ 53 then q else ulpFrom fuel m (2 * q)

/-- The spacing of the doubles around `m`: the least power of two `q` with
`m / q < 2 ^ 53` (a double has 53 significant bits).  The search needs fewer
than `m` doublings. -/
def ulp (m : Nat) : Nat :=
  ulpFrom m m 1

/-- The double nearest to the natural number `m`, ties going to the even
significand (IEEE 754 round to nearest even), as a natural number.  Below
`2 ^ 53` every natural number is a double. -/
def roundNat (m : Nat) : Nat :=
  if m < 2 ^ 53 then m
  else
    let q := ulp m
    let lo := m / q * q
    let r := m % q
    if 2 * r < q then lo
    else if q < 2 * r then lo + q
    else if (m / q) % 2 = 0 then lo else lo + q

/-- JavaScript number whose value is an integer, an infinity (`inf true` is
`-Infinity`) or `NaN`.  The integer of `int` is a double. -/
inductive JsNumber where
  | nan : JsNumber
  | inf : Bool → JsNumber
  | int : Int → JsNumber
  deriving DecidableEq, Repr

namespace JsNumber

/-- The power `2 ^ 1024`, written as a product of smaller powers: the least
natural number that rounding takes beyond the largest double
`2 ^ 1024 - 2 ^ 971`. -/
def overflowBound : Nat :=
  2 ^ 256 * 2 ^ 256 * 2 ^ 256 * 2 ^ 256

/-- The number value of the integer of magnitude `m`: the nearest double, an
infinity when rounding goes beyond the largest double. -/
def ofNat (negative : Bool) (m : Nat) : JsNumber :=
  if roundNat m < overflowBound then
    int (if negative then -(roundNat m : Int) else (roundNat m : Int))
  else inf negative

/-- The number value of an integer. -/
def ofInt : Int → JsNumber
  | Int.ofNat m => ofNat false m
  | Int.negSucc m => ofNat true (m + 1)

/-- The operator `+` on numbers: the exact sum, rounded to a double. -/
def add : JsNumber → JsNumber → JsNumber
  | int a, int b => ofInt (a + b)
  | int _, inf s => inf s
  | inf s, int _ => inf s
  | inf s, inf t => if s = t then inf s else nan
  | _, _ => nan

/-- One step of the search of `Number::toString` for the shortest decimal: the
multiples of `p` next to `m` that round to the double `m`; of two, the one
nearer to `m`, and at equal distance the one with the even multiplier. -/
def decimalCandidate (m p : Nat) : Option Nat :=
  let lo := m / p * p
  let hi := lo + p
  if roundNat lo = m then
    if roundNat hi = m then
      if m - lo < hi - m then some lo
      else if hi - m < m - lo then some hi
      else if (m / p) % 2 = 0 then some lo else some hi
    else some lo
  else if roundNat hi = m then some hi
  else none

/-- The integer with the fewest significant digits that rounds to the double
`m`: the candidates are tried from one significant digit upwards. -/
def shortestDecimal (m : Nat) : Nat :=
  let d := (Nat.toDigits 10 m).length
  ((List.range d).findSome? (fun i => decimalCandidate m (10 ^ (d - 1 - i)))).getD m

/-- A digit string without its trailing zeros. -/
def stripZeros (ds : Str) : Str :=
  (ds.reverse.dropWhile (fun c => c == '0')).reverse

/-- The operation `Number::toString` on a positive integer double: the shortest
decimal that rounds to it, written in full below `10 ^ 21` and in exponent
form from there on. -/
def natToStr (m : Nat) : Str :=
  let c := shortestDecimal m
  let ds := Nat.toDigits 10 c
  if c < 10 ^ 21 then ds
  else
    let e := "e+".toList ++ Nat.toDigits 10 (ds.length - 1)
    match stripZeros ds with
    | [] => ds
    | [a] => a :: e
    | a :: rest => a :: '.' :: rest ++ e

/-- Conversion of a number to a string, as done by `localStorage.setItem` on
its value argument. -/
def toStr : JsNumber → Str
  | nan => "NaN".toList
  | inf false => "Infinity".toList
  | inf true => "-Infinity".toList
  | int (Int.ofNat n) => natToStr n
  | int (Int.negSucc n) => '-' :: natToStr (n + 1)

end JsNumber

/-- Value of the decimal digits `ds`, most significant first. -/
def digitsValue (ds : Str) : Nat :=
  ds.foldl (fun acc c => 10 * acc + (c.toNat - 48)) 0

/-- The optional sign read by `parseInt`: whether it is a minus, and the rest. -/
def readSign : Str → Bool × Str
  | '-' :: r => (true, r)
  | '+' :: r => (false, r)
  | t => (false, t)

/-- The function `parseInt(s, 10)`: leading white space is skipped, an optional
sign is read, then the longest run of decimal digits; `NaN` when that run is
empty, otherwise the number value of the signed integer the digits spell. -/
def parseInt10 (s : Str) : JsNumber :=
  let signed := readSign (s.dropWhile isWhiteSpace)
  let ds := signed.2.takeWhile Char.isDigit
  if ds.isEmpty then .nan
  else .ofNat signed.1 (digitsValue ds)

/-! ## Component state -/

/-- A file selected in the file input. -/
structure File where
  bytes : List Nat
  deriving DecidableEq, Repr

/-- The state variables of `App` (the `useState` hooks). -/
structure AppState where
  emails : Str
  file : Option File
  emailCount : Nat
  errorMessage : Str
  successEmails : List Str
  invalidEmails : List Str
  totalSentEmails : JsNumber
  password : Str
  isPasswordValid : Bool
  loading : Bool
  deriving DecidableEq, Repr

/-- The initial values given to the `useState` hooks. -/
def initialState : AppState :=
  { emails := [], file := none, emailCount := 0, errorMessage := [],
    successEmails := [], invalidEmails := [], totalSentEmails := .int 0,
    password := [], isPasswordValid := false, loading := false }

/-- The slot of `localStorage` under the key `totalSentEmails`; `none` when the
key is absent (`getItem` returns `null`). -/
structure Storage where
  totalSentEmails : Option Str
  deriving DecidableEq, Repr

/-- Body of the response of `POST /validate-emails`. -/
structure ValidateResponse where
  validEmails : List Str
  invalidEmails : List Str
  deriving DecidableEq, Repr

/-- Body of the response of `POST /send-emails`. -/
structure SendResponse where
  successEmails : List Str
  failedEmails : List Str
  deriving DecidableEq, Repr

/-- What a handler does besides updating the state and the storage. -/
inductive Effect where
  | postValidateEmails (emails : Str)
  | postValidatePassword (password : Str)
  | postSendEmails (emails : Str) (file : Option File)
  | toastError (message : String)
  | toastSuccess (message : String)
  | consoleError (message : String)
  deriving DecidableEq, Repr

/-- Whether the effect is a request to `/send-emails`. -/
def Effect.isSendEmails : Effect → Bool
  | .postSendEmails _ _ => true
  | _ => false

/-- Whether the effect is a request to `/validate-emails`. -/
def Effect.isValidateEmails : Effect → Bool
  | .postValidateEmails _ => true
  | _ => false

/-- A handler in progress: the state the next render will show, the storage,
and the effects issued so far, oldest first. -/
structure Run where
  state : AppState
  storage : Storage
  effects : List Effect
  deriving DecidableEq, Repr

/-- Record one more effect. -/
def Run.emit (r : Run) (e : Effect) : Run :=
  { r with effects := r.effects ++ [e] }

/-- Apply a `setX` call to the pending state. -/
def Run.set (r : Run) (f : AppState → AppState) : Run :=
  { r with state := f r.state }

/-! ## Startup -/

/-- The `useEffect` run once after the first render: the counter is read from
the storage when the stored string is truthy (present and non-empty). -/
def loadStoredTotal (st : Storage) (s : AppState) : AppState :=
  match st.totalSentEmails with
  | none => s
  | some storedTotal =>
    if storedTotal.isEmpty then s
    else { s with totalSentEmails := parseInt10 storedTotal }

/-! ## Address text -/

/-- The handler `handleEmailChange`, with `value` the text of the event. -/
def handleEmailChange (value : Str) (s : AppState) : AppState :=
  let emailList := ((split ',' value).map trim).filter (fun email => !email.isEmpty)
  let validEmails := emailList.filter (fun email => emailRegex.test email)
  { s with
    emails := value
    emailCount := validEmails.length
    errorMessage :=
      if validEmails.length = emailList.length then [] else "Some emails are invalid".toList }

/-- A token of the address text together with the white space typed around it. -/
structure Padded where
  left : Str
  token : Str
  right : Str
  deriving DecidableEq, Repr

/-- The text of a padded token, as it stands between two commas. -/
def Padded.text (p : Padded) : Str :=
  p.left ++ p.token ++ p.right

/-- The padding is white space and the token has no comma. -/
def Padded.ok (p : Padded) : Bool :=
  p.left.all isWhiteSpace && p.right.all isWhiteSpace && p.token.all (fun c => c != ',')

/-- The expression `[...new Set(xs)]`: the distinct elements of `xs` in the order
of their first insertion. -/
def setSpread (xs : List Str) : List Str :=
  xs.foldl (fun acc x => if x ∈ acc then acc else acc ++ [x]) []

/-- The method `Array.prototype.flat` on an array of rows. -/
def flat (rows : List (List Str)) : List Str :=
  rows.flatten

/-- The string `extractedEmails` of `reader.onload`, with `jsonData` the rows of
the first sheet as returned by `XLSX.utils.sheet_to_json`.  A cell is given by
the string it converts to when tested; a cell that is not a string (a number,
a boolean, a date) converts to a string that the expression rejects. -/
def extractedEmails (jsonData : List (List Str)) : Str :=
  join ", ".toList (setSpread ((flat jsonData).filter (fun email => emailRegex.test email)))

/-- The string `emailsWithComma` of `reader.onload`. -/
def emailsWithComma (jsonData : List (List Str)) : Str :=
  if (extractedEmails jsonData).isEmpty then [] else extractedEmails jsonData ++ [',']

/-- The callback `reader.onload` of `handleFileChange`. -/
def onload (jsonData : List (List Str)) (s : AppState) : AppState :=
  { s with
    emails := emailsWithComma jsonData
    emailCount :=
      ((split ',' (emailsWithComma jsonData)).filter
        (fun email => emailRegex.test (trim email))).length }

/-- Removal of duplicates that keeps the first occurrence of each string. -/
def dedupFirst : List Str → List Str
  | [] => []
  | x :: xs => x :: (dedupFirst xs).filter (fun y => y != x)

/-- The normalized text as the specification words it: the cell values in
row-major order, those matching the address-syntax rule kept, duplicates
removed keeping the first occurrence; the empty string when nothing is left,
otherwise the addresses joined by `", "` followed by one trailing comma. -/
def normalizedTextSpec (cells : List (List Str)) : Str :=
  match dedupFirst (cells.flatten.filter (fun v => emailRegex.test v)) with
  | [] => []
  | a :: as => join ", ".toList (a :: as) ++ [',']

/-- The tokens of the text `a@b.com, bad, c@d.org,` with their padding. -/
def sampleTokens : List Padded :=
  [ ⟨[], "a@b.com".toList, []⟩, ⟨[' '], "bad".toList, []⟩,
    ⟨[' '], "c@d.org".toList, []⟩, ⟨[], [], []⟩ ]

/-- The handler `handleFileChange` up to the start of the asynchronous read. -/
def handleFileChange (selectedFile : File) (s : AppState) : AppState :=
  { s with file := some selectedFile }

/-! ## Password -/

/-- The handler `handlePasswordChange` up to the point where `validatePassword`
awaits the response of `/validate-password`. -/
def handlePasswordChange (enteredPassword : Str) (s : AppState) (st : Storage) : Run :=
  let r : Run := { state := s, storage := st, effects := [] }
  let r := r.set (fun n => { n with password := enteredPassword })
  r.emit (.postValidatePassword enteredPassword)

/-- The rest of `validatePassword`, run when the request settles: `some isValid`
is a response with that flag, `none` a rejected request. -/
def validatePasswordSettled (res : Option Bool) (r : Run) : Run :=
  match res with
  | some isValid => r.set (fun n => { n with isPasswordValid := isValid })
  | none =>
    let r := r.emit (.consoleError "Error validating password:")
    r.set (fun n => { n with isPasswordValid := false })

/-- The submit button is enabled (`disabled` is `!isPasswordValid`). -/
def submitEnabled (s : AppState) : Bool :=
  s.isPasswordValid

/-! ## Submission -/

/-- The function `validateEmails`.  The request carries the address text `emails`
captured by the closure, `s.emails`; `res` is the outcome of the request. -/
def validateEmails (s : AppState) (res : Option ValidateResponse) (r : Run) : List Str × Run :=
  let r := r.emit (.postValidateEmails s.emails)
  match res with
  | some data =>
    let r := r.set (fun n => { n with invalidEmails := data.invalidEmails })
    let r :=
      if data.invalidEmails.length > 0 then
        r.emit (.toastError "Some emails are invalid. Please correct them before sending.")
      else r
    (data.validEmails, r)
  | none =>
    let r := r.emit (.consoleError "Error validating emails:")
    let r := r.emit (.toastError "Failed to validate emails")
    ([], r)

/-- The handler `handleSubmit`.  The state `s` is the one captured by the
closure: `isPasswordValid`, `invalidEmails`, `file` and `totalSentEmails` are
read from it, also after `validateEmails` has called `setInvalidEmails`.
The outcomes of the two requests are `validateRes` and `sendRes`. -/
def handleSubmit (s : AppState) (st : Storage)
    (validateRes : Option ValidateResponse) (sendRes : Option SendResponse) : Run :=
  let r : Run := { state := s, storage := st, effects := [] }
  if !s.isPasswordValid then
    r.emit (.toastError "Please enter a valid password.")
  else
    let (validEmails, r) := validateEmails s validateRes r
    if s.invalidEmails.length > 0 then r
    else
      let r := r.set (fun n => { n with loading := true })
      let r := r.emit (.postSendEmails (join [','] validEmails) s.file)
      let r :=
        match sendRes with
        | some data =>
          let r := r.set (fun n => { n with successEmails := data.successEmails })
          let r := r.set (fun n => { n with invalidEmails := data.failedEmails })
          let totalSent := s.totalSentEmails.add (.int data.successEmails.length)
          let r := r.set (fun n => { n with totalSentEmails := totalSent })
          let r := { r with storage := { totalSentEmails := some totalSent.toStr } }
          let r :=
            if data.failedEmails.length > 0 then
              r.emit (.toastError
                "Some emails failed to send. Check the Failed Emails section for details.")
            else r.emit (.toastSuccess "All emails were sent successfully.")
          let r := r.set (fun n => { n with emails := [] })
          let r := r.set (fun n => { n with file := none })
          let r := r.set (fun n => { n with password := [] })
          let r := r.set (fun n => { n with emailCount := 0 })
          let r := r.set (fun n => { n with errorMessage := [] })
          let r := r.set (fun n => { n with successEmails := [] })
          r.set (fun n => { n with invalidEmails := [] })
        | none =>
          let r := r.emit (.consoleError "There was an error sending the emails:")
          r.emit (.toastError "Failed to process emails")
      r.set (fun n => { n with loading := false })

/-! ## Observations and sample states -/

/-- The dispatch step is reached: a request to `/send-emails` is issued. -/
def Run.sendCalled (r : Run) : Bool :=
  r.effects.any Effect.isSendEmails

/-- A request to `/validate-emails` is issued. -/
def Run.validateCalled (r : Run) : Bool :=
  r.effects.any Effect.isValidateEmails

/-- A state with a valid verdict, shown on a first submission: nothing is
displayed in the result lists yet. -/
def firstSubmission : AppState :=
  { initialState with
    emails := "a@b.com, bad".toList
    password := "secret".toList
    isPasswordValid := true }

/-- A state whose verdict is valid for the password `secret`. -/
def verdictValid : AppState :=
  { initialState with password := "secret".toList, isPasswordValid := true }

/-! # Theorems -/

/-! ## Submission: the gate, the validation step and the dispatch -/

@[simp]
theorem Run.emit_effects (r : Run) (e : Effect) :
    (r.emit e).effects = r.effects ++ [e] := rfl

@[simp]
theorem Run.emit_state (r : Run) (e : Effect) : (r.emit e).state = r.state := rfl

@[simp]
theorem Run.emit_storage (r : Run) (e : Effect) : (r.emit e).storage = r.storage := rfl

@[simp]
theorem Run.set_effects (r : Run) (f : AppState → AppState) :
    (r.set f).effects = r.effects := rfl

@[simp]
theorem Run.set_state (r : Run) (f : AppState → AppState) :
    (r.set f).state = f r.state := rfl

@[simp]
theorem Run.set_storage (r : Run) (f : AppState → AppState) :
    (r.set f).storage = r.storage := rfl

/-- The validation step issues no request to `/send-emails`. -/
theorem validateEmails_sendCalled (s : AppState) (res : Option ValidateResponse) (r : Run) :
    (validateEmails s res r).2.sendCalled = r.sendCalled := by
  cases res with
  | none => simp [validateEmails, Run.sendCalled, Effect.isSendEmails]
  | some data =>
    by_cases h : data.invalidEmails.length > 0 <;>
      simp [validateEmails, Run.sendCalled, Effect.isSendEmails, h]

/-- The validation step leaves the storage alone. -/
theorem validateEmails_storage (s : AppState) (res : Option ValidateResponse) (r : Run) :
    (validateEmails s res r).2.storage = r.storage := by
  cases res with
  | none => simp [validateEmails]
  | some data =>
    by_cases h : data.invalidEmails.length > 0 <;> simp [validateEmails, h]

/-- The state left by the validation step: the failed list is replaced by the
list of the response, and is kept when the request is rejected. -/
theorem validateEmails_state (s : AppState) (res : Option ValidateResponse) (r : Run) :
    (validateEmails s res r).2.state =
      match res with
      | some data => { r.state with invalidEmails := data.invalidEmails }
      | none => r.state := by
  cases res with
  | none => simp [validateEmails]
  | some data =>
    by_cases h : data.invalidEmails.length > 0 <;> simp [validateEmails, h]

/-- Whether the request is sent depends on the captured state alone: the
verdict is valid and the captured failed list is empty. -/
theorem sendCalled_iff (s : AppState) (st : Storage)
    (validateRes : Option ValidateResponse) (sendRes : Option SendResponse) :
    (handleSubmit s st validateRes sendRes).sendCalled = true ↔
      s.isPasswordValid = true ∧ s.invalidEmails = [] := by
  cases hv : s.isPasswordValid
  · simp [handleSubmit, hv, Run.sendCalled, Effect.isSendEmails]
  · cases hi : s.invalidEmails with
    | cons a l =>
      have h := validateEmails_sendCalled s validateRes { state := s, storage := st, effects := [] }
      simp [handleSubmit, hv, hi, h]
      simp [Run.sendCalled]
    | nil =>
      cases sendRes with
      | none => simp [handleSubmit, hv, hi, Run.sendCalled, Effect.isSendEmails]
      | some data =>
        by_cases hf : data.failedEmails.length > 0 <;>
          simp [handleSubmit, hv, hi, Run.sendCalled, Effect.isSendEmails, hf]

/-- C1, evaluated on the code: on a first submission with a valid verdict, the
response of `/validate-emails` reports the invalid address `bad`, and
`handleSubmit` still posts the valid addresses to `/send-emails`. -/
theorem handleSubmit_sends_after_invalid_report :
    (handleSubmit firstSubmission ⟨none⟩
        (some ⟨["a@b.com".toList], ["bad".toList]⟩)
        (some ⟨["a@b.com".toList], []⟩)).effects =
      [ .postValidateEmails "a@b.com, bad".toList,
        .toastError "Some emails are invalid. Please correct them before sending.",
        .postSendEmails "a@b.com".toList none,
        .toastSuccess "All emails were sent successfully." ] := by
  decide

/-- C2: with a verdict that is not valid, `handleSubmit` issues no request to
`/validate-emails` and none to `/send-emails`, and leaves the whole state
(address text, result lists, counter) and the storage as they were. -/
theorem handleSubmit_gate_closed (s : AppState) (st : Storage)
    (validateRes : Option ValidateResponse) (sendRes : Option SendResponse)
    (h : s.isPasswordValid = false) :
    (handleSubmit s st validateRes sendRes).validateCalled = false ∧
    (handleSubmit s st validateRes sendRes).sendCalled = false ∧
    (handleSubmit s st validateRes sendRes).state = s ∧
    (handleSubmit s st validateRes sendRes).storage = st := by
  simp [handleSubmit, h, Run.emit, Run.validateCalled, Run.sendCalled,
    Effect.isValidateEmails, Effect.isSendEmails]

/-- Witness of C2 at the initial state, whose verdict is not valid. -/
theorem handleSubmit_gate_closed_witness :
    initialState.isPasswordValid = false ∧
    ((handleSubmit initialState ⟨some "7".toList⟩ none none).validateCalled = false ∧
     (handleSubmit initialState ⟨some "7".toList⟩ none none).sendCalled = false ∧
     (handleSubmit initialState ⟨some "7".toList⟩ none none).state = initialState ∧
     (handleSubmit initialState ⟨some "7".toList⟩ none none).storage = ⟨some "7".toList⟩) :=
  ⟨by decide, handleSubmit_gate_closed initialState ⟨some "7".toList⟩ none none (by decide)⟩

/-- C7, evaluated on the code: on a first submission with a valid verdict the
request to `/validate-emails` is rejected, and `handleSubmit` still posts to
`/send-emails`, with an empty address field. -/
theorem handleSubmit_sends_after_validation_failure :
    (handleSubmit firstSubmission ⟨none⟩ none (some ⟨[], []⟩)).effects =
      [ .postValidateEmails "a@b.com, bad".toList,
        .consoleError "Error validating emails:",
        .toastError "Failed to validate emails",
        .postSendEmails [] none,
        .toastSuccess "All emails were sent successfully." ] := by
  decide

/-- C9, evaluated on the code: the request to `/send-emails` succeeds and reports
`c@d.org` as failed; when `handleSubmit` completes the form inputs are cleared
and the failed list held for display is empty, although the toast sends the
user to the failed list. -/
theorem handleSubmit_drops_failedEmails :
    (handleSubmit { firstSubmission with emails := "a@b.com, c@d.org".toList } ⟨none⟩
        (some ⟨["a@b.com".toList, "c@d.org".toList], []⟩)
        (some ⟨["a@b.com".toList], ["c@d.org".toList]⟩)).state =
      { initialState with totalSentEmails := .int 1, isPasswordValid := true } ∧
    (handleSubmit { firstSubmission with emails := "a@b.com, c@d.org".toList } ⟨none⟩
        (some ⟨["a@b.com".toList, "c@d.org".toList], []⟩)
        (some ⟨["a@b.com".toList], ["c@d.org".toList]⟩)).effects =
      [ .postValidateEmails "a@b.com, c@d.org".toList,
        .postSendEmails "a@b.com,c@d.org".toList none,
        .toastError "Some emails failed to send. Check the Failed Emails section for details." ] := by
  decide

/-- C6 as stated fails: on a first submission the validation response reports
`bad`, the dispatch step is reached and the request to `/send-emails` is
rejected; the failed list is then `["bad"]`, not the empty list it was. -/
theorem failed_dispatch_changes_failed_list :
    (handleSubmit firstSubmission ⟨some "5".toList⟩
        (some ⟨["a@b.com".toList], ["bad".toList]⟩) none).sendCalled = true ∧
    firstSubmission.invalidEmails = [] ∧
    (handleSubmit firstSubmission ⟨some "5".toList⟩
        (some ⟨["a@b.com".toList], ["bad".toList]⟩) none).state.invalidEmails =
      ["bad".toList] := by
  decide

/-- C6, amended: when the dispatch step is reached and the request to
`/send-emails` is rejected, the counter, the storage and the success list are
as before the submission, and so is the failed list whenever the validation
step reported no invalid address (an empty `invalidEmails`, or a rejected
request). -/
theorem failed_dispatch_frame (s : AppState) (st : Storage)
    (validateRes : Option ValidateResponse)
    (hreach : (handleSubmit s st validateRes none).sendCalled = true) :
    (handleSubmit s st validateRes none).state.totalSentEmails = s.totalSentEmails ∧
    (handleSubmit s st validateRes none).storage = st ∧
    (handleSubmit s st validateRes none).state.successEmails = s.successEmails ∧
    ((∀ data, validateRes = some data → data.invalidEmails = []) →
      (handleSubmit s st validateRes none).state.invalidEmails = s.invalidEmails) := by
  obtain ⟨hv, hi⟩ := (sendCalled_iff s st validateRes none).1 hreach
  have hs := validateEmails_state s validateRes { state := s, storage := st, effects := [] }
  have ht := validateEmails_storage s validateRes { state := s, storage := st, effects := [] }
  cases validateRes with
  | none =>
    simp only [] at hs
    simp [handleSubmit, hv, hi, hs, ht]
  | some data =>
    simp only [] at hs
    simp [handleSubmit, hv, hi, hs, ht]

/-- Witness of the amended C6: a first submission whose addresses are all
accepted by the validator and whose dispatch is rejected leaves the counter,
the storage and both lists as they were. -/
theorem failed_dispatch_frame_witness :
    (handleSubmit firstSubmission ⟨some "5".toList⟩
        (some ⟨["a@b.com".toList], []⟩) none).sendCalled = true ∧
    (handleSubmit firstSubmission ⟨some "5".toList⟩
        (some ⟨["a@b.com".toList], []⟩) none).state.totalSentEmails = .int 0 ∧
    (handleSubmit firstSubmission ⟨some "5".toList⟩
        (some ⟨["a@b.com".toList], []⟩) none).storage = ⟨some "5".toList⟩ ∧
    (handleSubmit firstSubmission ⟨some "5".toList⟩
        (some ⟨["a@b.com".toList], []⟩) none).state.successEmails = [] ∧
    (handleSubmit firstSubmission ⟨some "5".toList⟩
        (some ⟨["a@b.com".toList], []⟩) none).state.invalidEmails = [] := by
  have h := failed_dispatch_frame firstSubmission ⟨some "5".toList⟩
    (some ⟨["a@b.com".toList], []⟩) (by decide)
  exact ⟨by decide, h.1, h.2.1, h.2.2.1,
    h.2.2.2 (fun data hd => by cases hd; rfl)⟩

/-! ## The lifetime counter -/

/-- A decimal digit character is a digit whose value is the digit. -/
theorem digitChar_isDigit (k : Nat) (h : k < 10) :
    (Nat.digitChar k).isDigit = true ∧ (Nat.digitChar k).toNat - 48 = k := by
  interval_cases k <;> decide

/-- Value of a digit string extended by one digit. -/
theorem digitsValue_snoc (ds : Str) (c : Char) :
    digitsValue (ds ++ [c]) = 10 * digitsValue ds + (c.toNat - 48) := by
  simp [digitsValue, List.foldl_append]

/-- With enough fuel the decimal rendering of `n` puts in front of the
accumulator a non-empty string of digits whose value is `n`. -/
theorem toDigitsCore_spec (fuel : Nat) :
    ∀ (n : Nat) (acc : Str), n < fuel →
      ∃ ds, Nat.toDigitsCore 10 fuel n acc = ds ++ acc ∧ ds ≠ [] ∧
        (∀ c ∈ ds, c.isDigit = true) ∧ digitsValue ds = n := by
  induction fuel with
  | zero => intro n acc h; omega
  | succ fuel ih =>
    intro n acc h
    have hd := digitChar_isDigit (n % 10) (Nat.mod_lt _ (by decide))
    by_cases h0 : n / 10 = 0
    · refine ⟨[Nat.digitChar (n % 10)], ?_, by simp, ?_, ?_⟩
      · simp [Nat.toDigitsCore, h0]
      · intro c hc
        simp at hc
        rw [hc]; exact hd.1
      · have hn : n % 10 = n := by omega
        have h2 := hd.2
        simp only [digitsValue, List.foldl_cons, List.foldl_nil, h2]
        omega
    · have hlt : n / 10 < fuel := by omega
      obtain ⟨ds, he, hne, hdig, hval⟩ := ih (n / 10) (Nat.digitChar (n % 10) :: acc) hlt
      refine ⟨ds ++ [Nat.digitChar (n % 10)], ?_, by simp, ?_, ?_⟩
      · simp [Nat.toDigitsCore, h0, he]
      · intro c hc
        rcases List.mem_append.1 hc with hc | hc
        · exact hdig c hc
        · simp at hc
          rw [hc]; exact hd.1
      · rw [digitsValue_snoc, hval, hd.2]
        omega

/-- A digit is neither white space nor a sign. -/
theorem isDigit_not_special (c : Char) (h : c.isDigit = true) :
    isWhiteSpace c = false ∧ c ≠ '-' ∧ c ≠ '+' := by
  simp only [Char.isDigit, Bool.and_eq_true, decide_eq_true_eq] at h
  have h1 : 48 ≤ c.toNat := h.1
  have h2 : c.toNat ≤ 57 := h.2
  refine ⟨?_, ?_, ?_⟩
  · simp [isWhiteSpace]; omega
  · rintro rfl; revert h1; decide
  · rintro rfl; revert h1; decide

/-- The spacing found by the search keeps `2 ^ 52 * q ≤ m` and does not
decrease. -/
theorem ulpFrom_spec (fuel : Nat) :
    ∀ m q : Nat, 2 ^ 52 * q ≤ m →
      2 ^ 52 * ulpFrom fuel m q ≤ m ∧ q ≤ ulpFrom fuel m q := by
  induction fuel with
  | zero => intro m q h; exact ⟨h, Nat.le_refl q⟩
  | succ fuel ih =>
    intro m q h
    unfold ulpFrom
    by_cases hlt : m / q < 2 ^ 53
    · rw [if_pos hlt]; exact ⟨h, Nat.le_refl q⟩
    · rw [if_neg hlt]
      have hge : 2 ^ 53 ≤ m / q := Nat.le_of_not_lt hlt
      have hq : 0 < q := by
        rcases Nat.eq_zero_or_pos q with h0 | h0
        · rw [h0, Nat.div_zero] at hge
          exact absurd hge (by norm_num)
        · exact h0
      have hmul : 2 ^ 53 * q ≤ m := (Nat.le_div_iff_mul_le hq).1 hge
      have h2 : 2 ^ 52 * (2 * q) ≤ m := by
        have e : 2 ^ 52 * (2 * q) = 2 ^ 53 * q := by ring
        rw [e]; exact hmul
      obtain ⟨h3, h4⟩ := ih m (2 * q) h2
      exact ⟨h3, by omega⟩

/-- Below `2 ^ 53` rounding changes nothing. -/
theorem roundNat_of_lt (m : Nat) (h : m < 2 ^ 53) : roundNat m = m := by
  unfold roundNat
  rw [if_pos h]

/-- From `2 ^ 53` on, the rounded value is at least `2 ^ 53`. -/
theorem roundNat_ge (m : Nat) (h : 2 ^ 53 ≤ m) : 2 ^ 53 ≤ roundNat m := by
  have hnot : ¬ m < 2 ^ 53 := Nat.not_lt.2 h
  obtain ⟨fuel, hfuel⟩ : ∃ fuel, m = fuel + 1 :=
    ⟨m - 1, by have : 0 < 2 ^ 53 := by norm_num
               omega⟩
  have hstep : ulp m = ulpFrom fuel m 2 := by
    have hdiv : ¬ m / 1 < 2 ^ 53 := by rw [Nat.div_one]; exact hnot
    have e : ulp m = ulpFrom (fuel + 1) m 1 := by
      unfold ulp
      rw [← hfuel]
    rw [e]
    show (if m / 1 < 2 ^ 53 then 1 else ulpFrom fuel m (2 * 1)) = _
    rw [if_neg hdiv]
  have h2 : 2 ^ 52 * 2 ≤ m := by
    have e : 2 ^ 52 * 2 = 2 ^ 53 := by norm_num
    rw [e]; exact h
  obtain ⟨hq1, hq2⟩ := ulpFrom_spec fuel m 2 h2
  rw [← hstep] at hq1 hq2
  have hqpos : 0 < ulp m := by omega
  have hdiv : 2 ^ 52 ≤ m / ulp m := (Nat.le_div_iff_mul_le hqpos).2 hq1
  have hlo : 2 ^ 53 ≤ m / ulp m * ulp m := by
    have e : 2 ^ 53 = 2 ^ 52 * 2 := by norm_num
    rw [e]
    exact Nat.mul_le_mul hdiv hq2
  unfold roundNat
  rw [if_neg hnot]
  simp only []
  split
  · exact hlo
  · split
    · omega
    · split
      · exact hlo
      · omega

/-- Below `2 ^ 53` the only candidate that rounds to `m` is `m` itself. -/
theorem decimalCandidate_exact (m p c : Nat) (hm : m < 2 ^ 53) (hp : 0 < p)
    (h : JsNumber.decimalCandidate m p = some c) : c = m := by
  have hlo : m / p * p ≤ m := Nat.div_mul_le_self m p
  have hhi : m < m / p * p + p := Nat.lt_div_mul_add hp
  have hlo_exact : roundNat (m / p * p) = m / p * p := roundNat_of_lt _ (by omega)
  have hhi_ne : roundNat (m / p * p + p) ≠ m := by
    by_cases hb : m / p * p + p < 2 ^ 53
    · rw [roundNat_of_lt _ hb]; omega
    · have := roundNat_ge _ (Nat.le_of_not_lt hb)
      omega
  unfold JsNumber.decimalCandidate at h
  simp only [hlo_exact, hhi_ne, if_false] at h
  by_cases he : m / p * p = m
  · simp only [he, if_true] at h
    injection h with h
    rw [← h]
  · simp [he] at h

/-- Below `2 ^ 53` the shortest decimal of `m` is `m`. -/
theorem shortestDecimal_exact (m : Nat) (hm : m < 2 ^ 53) :
    JsNumber.shortestDecimal m = m := by
  unfold JsNumber.shortestDecimal
  simp only []
  cases hf : (List.range (Nat.toDigits 10 m).length).findSome?
      (fun i => JsNumber.decimalCandidate m (10 ^ ((Nat.toDigits 10 m).length - 1 - i))) with
  | none => rfl
  | some c =>
    obtain ⟨i, _, hi⟩ := List.exists_of_findSome?_eq_some hf
    exact decimalCandidate_exact m _ c hm (Nat.pos_pow_of_pos _ (by norm_num)) hi

/-- Up to `2 ^ 53` a natural number is printed with its decimal digits. -/
theorem natToStr_exact (m : Nat) (hm : m ≤ 2 ^ 53) :
    JsNumber.natToStr m = Nat.toDigits 10 m := by
  rcases Nat.lt_or_eq_of_le hm with hlt | heq
  · unfold JsNumber.natToStr
    simp only [shortestDecimal_exact m hlt]
    have : m < 10 ^ 21 := by
      have : (2 : Nat) ^ 53 < 10 ^ 21 := by norm_num
      omega
    rw [if_pos this]
  · rw [heq]; decide

/-- Up to `2 ^ 53` a natural number is its own number value. -/
theorem ofNat_exact (m : Nat) (hm : m ≤ 2 ^ 53) :
    JsNumber.ofNat false m = .int (m : Int) := by
  have hr : roundNat m = m := by
    rcases Nat.lt_or_eq_of_le hm with hlt | heq
    · exact roundNat_of_lt m hlt
    · rw [heq]; decide
  have hb : m < JsNumber.overflowBound := by
    have : (2 : Nat) ^ 53 < JsNumber.overflowBound := by norm_num [JsNumber.overflowBound]
    omega
  simp [JsNumber.ofNat, hr, hb]

/-- On a non-empty string of digits `parseInt` returns the number value of the
integer they spell. -/
theorem parseInt10_digits (ds : Str) (hne : ds ≠ [])
    (hdig : ∀ c ∈ ds, c.isDigit = true) :
    parseInt10 ds = JsNumber.ofNat false (digitsValue ds) := by
  cases ds with
  | nil => exact absurd rfl hne
  | cons c cs =>
    have hc := isDigit_not_special c (hdig c (by simp))
    have htw : (c :: cs).takeWhile Char.isDigit = c :: cs :=
      List.takeWhile_eq_self_iff.2 hdig
    have hdw : (c :: cs).dropWhile isWhiteSpace = c :: cs := by
      simp [List.dropWhile, hc.1]
    have hrs : readSign (c :: cs) = (false, c :: cs) := by
      unfold readSign
      split
      · next r heq => injection heq with h1 h2; exact absurd h1 hc.2.1
      · next r heq => injection heq with h1 h2; exact absurd h1 hc.2.2
      · rfl
    simp [parseInt10, hdw, hrs, htw]

/-- The startup load reads back a counter up to `2 ^ 53` written to the
storage. -/
theorem loadStoredTotal_toStr (m : Nat) (hm : m ≤ 2 ^ 53) (s : AppState) :
    (loadStoredTotal ⟨some (JsNumber.toStr (.int (m : Int)))⟩ s).totalSentEmails =
      .int (m : Int) := by
  obtain ⟨ds, he, hne, hdig, hval⟩ := toDigitsCore_spec (m + 1) m [] (Nat.lt_succ_self m)
  have hds : Nat.toDigits 10 m = ds := by simpa [Nat.toDigits] using he
  have hstr : JsNumber.toStr (.int (m : Int)) = ds := by
    show JsNumber.natToStr m = ds
    rw [natToStr_exact m hm, hds]
  have hemp : ds.isEmpty = false := by
    cases ds with
    | nil => exact absurd rfl hne
    | cons c cs => rfl
  simp [loadStoredTotal, hstr, hemp, parseInt10_digits ds hne hdig, hval, ofNat_exact m hm]

/-- C3 as stated fails: with the counter at `2 ^ 53 = 9007199254740992` and one
address in `successEmails`, the sum is rounded to a double; the counter after
`handleSubmit` is still `2 ^ 53`, not `2 ^ 53 + 1`, and so is the value read
back from the storage. -/
theorem counter_rounded_at_two_pow_53 :
    (handleSubmit { firstSubmission with totalSentEmails := .int 9007199254740992 } ⟨none⟩
        (some ⟨["a@b.com".toList], []⟩)
        (some ⟨["a@b.com".toList], []⟩)).sendCalled = true ∧
    (handleSubmit { firstSubmission with totalSentEmails := .int 9007199254740992 } ⟨none⟩
        (some ⟨["a@b.com".toList], []⟩)
        (some ⟨["a@b.com".toList], []⟩)).state.totalSentEmails = .int 9007199254740992 ∧
    (handleSubmit { firstSubmission with totalSentEmails := .int 9007199254740992 } ⟨none⟩
        (some ⟨["a@b.com".toList], []⟩)
        (some ⟨["a@b.com".toList], []⟩)).state.totalSentEmails ≠
      .int (9007199254740992 + 1) ∧
    (handleSubmit { firstSubmission with totalSentEmails := .int 9007199254740992 } ⟨none⟩
        (some ⟨["a@b.com".toList], []⟩)
        (some ⟨["a@b.com".toList], []⟩)).storage = ⟨some "9007199254740992".toList⟩ ∧
    (loadStoredTotal
        (handleSubmit { firstSubmission with totalSentEmails := .int 9007199254740992 } ⟨none⟩
          (some ⟨["a@b.com".toList], []⟩)
          (some ⟨["a@b.com".toList], []⟩)).storage
        initialState).totalSentEmails = .int 9007199254740992 := by
  decide

/-- C3, amended: when the dispatch step is reached with the counter at `n` and
the request to `/send-emails` succeeds with `k` addresses in `successEmails`,
and `n + k` is at most `2 ^ 53`, the counter after `handleSubmit` is `n + k`,
and the startup load of a fresh component reads `n + k` back from the
storage. -/
theorem counter_after_success (s : AppState) (st : Storage)
    (validateRes : Option ValidateResponse) (data : SendResponse) (n : Nat)
    (hn : s.totalSentEmails = .int (n : Int))
    (hbound : n + data.successEmails.length ≤ 2 ^ 53)
    (hreach : (handleSubmit s st validateRes (some data)).sendCalled = true) :
    (handleSubmit s st validateRes (some data)).state.totalSentEmails =
      .int ((n + data.successEmails.length : Nat) : Int) ∧
    (loadStoredTotal (handleSubmit s st validateRes (some data)).storage
        initialState).totalSentEmails =
      .int ((n + data.successEmails.length : Nat) : Int) := by
  obtain ⟨hv, hi⟩ := (sendCalled_iff s st validateRes (some data)).1 hreach
  have hadd : s.totalSentEmails.add (.int (data.successEmails.length : Int)) =
      .int ((n + data.successEmails.length : Nat) : Int) := by
    rw [hn]
    show JsNumber.ofInt ((n : Int) + (data.successEmails.length : Int)) = _
    rw [← Nat.cast_add]
    exact ofNat_exact _ hbound
  have hstate : (handleSubmit s st validateRes (some data)).state.totalSentEmails =
      .int ((n + data.successEmails.length : Nat) : Int) := by
    by_cases hf : data.failedEmails.length > 0 <;>
      simp only [handleSubmit, hv, hi, hf, hadd] <;> simp
  have hstore : (handleSubmit s st validateRes (some data)).storage =
      ⟨some (JsNumber.toStr (.int ((n + data.successEmails.length : Nat) : Int)))⟩ := by
    by_cases hf : data.failedEmails.length > 0 <;>
      simp only [handleSubmit, hv, hi, hf, hadd] <;> simp
  exact ⟨hstate, by rw [hstore]; exact loadStoredTotal_toStr _ hbound _⟩

/-- Witness of the amended C3: with the counter at 5, a response with two
addresses in `successEmails` brings it to 7, and 7 is read back after a
restart. -/
theorem counter_after_success_witness :
    ({ firstSubmission with totalSentEmails := .int 5 } : AppState).totalSentEmails = .int 5 ∧
    5 + 2 ≤ 2 ^ 53 ∧
    (handleSubmit { firstSubmission with totalSentEmails := .int 5 } ⟨some "5".toList⟩
        (some ⟨["a@b.com".toList, "c@d.org".toList], []⟩)
        (some ⟨["a@b.com".toList, "c@d.org".toList], []⟩)).sendCalled = true ∧
    (handleSubmit { firstSubmission with totalSentEmails := .int 5 } ⟨some "5".toList⟩
        (some ⟨["a@b.com".toList, "c@d.org".toList], []⟩)
        (some ⟨["a@b.com".toList, "c@d.org".toList], []⟩)).state.totalSentEmails = .int 7 ∧
    (loadStoredTotal
        (handleSubmit { firstSubmission with totalSentEmails := .int 5 } ⟨some "5".toList⟩
          (some ⟨["a@b.com".toList, "c@d.org".toList], []⟩)
          (some ⟨["a@b.com".toList, "c@d.org".toList], []⟩)).storage
        initialState).totalSentEmails = .int 7 :=
  ⟨rfl, by norm_num, by decide,
    counter_after_success { firstSubmission with totalSentEmails := .int 5 } ⟨some "5".toList⟩
      (some ⟨["a@b.com".toList, "c@d.org".toList], []⟩)
      ⟨["a@b.com".toList, "c@d.org".toList], []⟩ 5 rfl (by norm_num) (by decide)⟩

/-! ## Password gate -/

/-- C8 as stated fails: after the password `secret`, judged valid, is edited to
`x`, and before the response for `x` arrives, the verdict is still valid and
the submit button is still enabled. -/
theorem edit_keeps_gate_open :
    verdictValid.isPasswordValid = true ∧
    (handlePasswordChange "x".toList verdictValid ⟨none⟩).state.password = "x".toList ∧
    (handlePasswordChange "x".toList verdictValid ⟨none⟩).state.isPasswordValid = true ∧
    submitEnabled (handlePasswordChange "x".toList verdictValid ⟨none⟩).state = true := by
  decide

/-- C8, amended: an edit of the password stores the new string and issues one
request to `/validate-password` for it; until that request settles the verdict
is the one held before the edit (a valid verdict stays valid and the button
stays enabled); when it settles the verdict is the flag of the response, or
not valid if the request was rejected. -/
theorem edit_then_response (s : AppState) (st : Storage) (enteredPassword : Str)
    (res : Option Bool) :
    (handlePasswordChange enteredPassword s st).state.password = enteredPassword ∧
    (handlePasswordChange enteredPassword s st).effects =
      [.postValidatePassword enteredPassword] ∧
    (handlePasswordChange enteredPassword s st).state.isPasswordValid = s.isPasswordValid ∧
    submitEnabled (handlePasswordChange enteredPassword s st).state = submitEnabled s ∧
    (validatePasswordSettled res
        (handlePasswordChange enteredPassword s st)).state.isPasswordValid =
      res.getD false := by
  cases res <;> simp [handlePasswordChange, validatePasswordSettled, submitEnabled]

/-! ## Splitting, joining and trimming -/

/-- Leading elements that satisfy the predicate are all dropped. -/
theorem dropWhile_append_all (p : Char → Bool) (l x : Str) (h : l.all p = true) :
    (l ++ x).dropWhile p = x.dropWhile p := by
  induction l with
  | nil => rfl
  | cons c l ih =>
    simp only [List.all_cons, Bool.and_eq_true] at h
    simp [List.dropWhile, h.1, ih h.2]

/-- A list of elements that all satisfy the predicate is dropped whole. -/
theorem dropWhile_all (p : Char → Bool) (l : Str) (h : l.all p = true) :
    l.dropWhile p = [] := by
  have := dropWhile_append_all p l [] h
  simpa using this

/-- When some element fails the predicate, what follows the list is kept. -/
theorem dropWhile_append_not_all (p : Char → Bool) (t r : Str) (h : t.all p = false) :
    (t ++ r).dropWhile p = t.dropWhile p ++ r := by
  induction t with
  | nil => simp at h
  | cons c t ih =>
    cases hc : p c
    · simp [List.dropWhile, hc]
    · have ht : t.all p = false := by simpa [hc] using h
      simp [List.dropWhile, hc, ih ht]

/-- Trimming ignores white space added at both ends. -/
theorem trim_padded (l t r : Str) (hl : l.all isWhiteSpace = true)
    (hr : r.all isWhiteSpace = true) : trim (l ++ t ++ r) = trim t := by
  unfold trim
  rw [List.append_assoc, dropWhile_append_all _ l _ hl]
  cases ht : t.all isWhiteSpace
  · have hrr : r.reverse.all isWhiteSpace = true := by simpa using hr
    rw [dropWhile_append_not_all _ t r ht, List.reverse_append,
      dropWhile_append_all _ _ _ hrr]
  · rw [dropWhile_append_all _ t r ht, dropWhile_all _ r hr, dropWhile_all _ t ht]

/-- A string without white space is its own trimmed form. -/
theorem trim_of_no_space (d : Str) (h : ∀ c ∈ d, isWhiteSpace c = false) : trim d = d := by
  have key : ∀ l : Str, (∀ c ∈ l, isWhiteSpace c = false) → l.dropWhile isWhiteSpace = l := by
    intro l hl
    cases l with
    | nil => rfl
    | cons c l => simp [List.dropWhile, hl c (by simp)]
  unfold trim
  rw [key d h, key d.reverse (by intro c hc; exact h c (by simpa using hc)), List.reverse_reverse]

/-- The first piece ends at the first separator. -/
theorem split_append_sep (sep : Char) (a b : Str) (h : sep ∉ a) :
    split sep (a ++ sep :: b) = a :: split sep b := by
  induction a with
  | nil => simp [split]
  | cons c a ih =>
    have hc : c ≠ sep := fun e => h (by simp [e])
    have ha : sep ∉ a := fun e => h (by simp [e])
    simp [split, hc, ih ha]

/-- A string without separator is a single piece. -/
theorem split_of_not_mem (sep : Char) (a : Str) (h : sep ∉ a) : split sep a = [a] := by
  induction a with
  | nil => rfl
  | cons c a ih =>
    have hc : c ≠ sep := fun e => h (by simp [e])
    have ha : sep ∉ a := fun e => h (by simp [e])
    simp [split, hc, ih ha]

/-- Joining two or more strings: the first, the separator, the rest joined. -/
theorem join_cons_cons (sep d e : Str) (rest : List Str) :
    join sep (d :: e :: rest) = d ++ sep ++ join sep (e :: rest) := by
  simp [join, List.intercalate, List.intersperse]

/-- Joining a single string. -/
theorem join_singleton (sep d : Str) : join sep [d] = d := by
  simp [join, List.intercalate, List.intersperse]

/-- Splitting undoes joining with the separator, for a non-empty list of
pieces without separator. -/
theorem split_join (sep : Char) (d : Str) (rest : List Str)
    (h : ∀ x ∈ d :: rest, sep ∉ x) : split sep (join [sep] (d :: rest)) = d :: rest := by
  induction rest generalizing d with
  | nil => rw [join_singleton]; exact split_of_not_mem sep d (h d (by simp))
  | cons e rest ih =>
    rw [join_cons_cons]
    have hd : sep ∉ d := h d (by simp)
    have hrest : ∀ x ∈ e :: rest, sep ∉ x := fun x hx => h x (List.mem_cons_of_mem _ hx)
    simp only [List.append_assoc, List.singleton_append]
    rw [split_append_sep sep d _ hd, ih e hrest]

/-! ## The address text editor -/

/-- The list `emailList` of `handleEmailChange`, computed on the joined padded
tokens, is the list of the trimmed tokens that are not empty. -/
theorem emailList_of_padded (ps : List Padded) (hok : ps.all Padded.ok = true) :
    ((split ',' (join [','] (ps.map Padded.text))).map trim).filter
        (fun email => !email.isEmpty) =
      (ps.map (fun p => trim p.token)).filter (fun email => !email.isEmpty) := by
  have htrim : ∀ p ∈ ps, trim p.text = trim p.token := by
    intro p hp
    have h := List.all_eq_true.1 hok p hp
    simp only [Padded.ok, Bool.and_eq_true] at h
    exact trim_padded _ _ _ h.1.1 h.1.2
  have hmap : (ps.map Padded.text).map trim = ps.map (fun p => trim p.token) := by
    rw [List.map_map]
    exact List.map_congr_left (fun p hp => htrim p hp)
  cases hps : ps with
  | nil => simp [join, split, trim]
  | cons p ps1 =>
    have hsep : ∀ x ∈ (p :: ps1).map Padded.text, ',' ∉ x := by
      intro x hx
      obtain ⟨q, hq, rfl⟩ := List.mem_map.1 hx
      have h := List.all_eq_true.1 hok q (hps ▸ hq)
      simp only [Padded.ok, Bool.and_eq_true] at h
      intro hmem
      simp only [Padded.text, List.mem_append] at hmem
      rcases hmem with (hm | hm) | hm
      · have := List.all_eq_true.1 h.1.1 _ hm
        revert this; decide
      · have := List.all_eq_true.1 h.2 _ hm
        simp at this
      · have := List.all_eq_true.1 h.1.2 _ hm
        revert this; decide
    rw [hps] at hmap
    rw [List.map_cons] at hsep ⊢
    rw [split_join ',' _ _ hsep, ← List.map_cons, hmap]

/-- C4: on the comma-joined text of padded comma-free tokens, `handleEmailChange`
sets `emailCount` to the number of tokens whose trimmed form is non-empty and
matches `emailRegex`, whatever the padding, and sets a non-empty error message
exactly when that count is less than the number of non-empty trimmed tokens;
on the empty text the count is 0 and the message is empty. -/
theorem handleEmailChange_count (ps : List Padded) (s : AppState)
    (hok : ps.all Padded.ok = true) :
    (handleEmailChange (join [','] (ps.map Padded.text)) s).emailCount =
      ps.countP (fun p => !(trim p.token).isEmpty && emailRegex.test (trim p.token)) ∧
    ((handleEmailChange (join [','] (ps.map Padded.text)) s).errorMessage ≠ [] ↔
      (handleEmailChange (join [','] (ps.map Padded.text)) s).emailCount <
        ps.countP (fun p => !(trim p.token).isEmpty)) ∧
    (handleEmailChange [] s).emailCount = 0 ∧
    (handleEmailChange [] s).errorMessage = [] := by
  have hlist := emailList_of_padded ps hok
  have hcount : (handleEmailChange (join [','] (ps.map Padded.text)) s).emailCount =
      ps.countP (fun p => !(trim p.token).isEmpty && emailRegex.test (trim p.token)) := by
    simp only [handleEmailChange, hlist]
    rw [List.filter_filter, List.filter_map, List.length_map, List.countP_eq_length_filter]
    congr 1
    apply List.filter_congr
    intro p _
    simp [Bool.and_comm]
  have hlen : ((ps.map (fun p => trim p.token)).filter (fun email => !email.isEmpty)).length =
      ps.countP (fun p => !(trim p.token).isEmpty) := by
    rw [List.filter_map, List.length_map, List.countP_eq_length_filter]
    rfl
  refine ⟨hcount, ?_, rfl, rfl⟩
  rw [hcount]
  have hle := List.length_filter_le (fun email => emailRegex.test email)
    ((ps.map (fun p => trim p.token)).filter (fun email => !email.isEmpty))
  have hc2 := hcount
  simp only [handleEmailChange, hlist] at hc2 ⊢
  rw [hc2] at hle ⊢
  rw [hlen] at hle ⊢
  constructor
  · intro h
    by_cases he : ps.countP (fun p => !(trim p.token).isEmpty && emailRegex.test (trim p.token)) =
        ps.countP (fun p => !(trim p.token).isEmpty)
    · simp [he] at h
    · omega
  · intro h
    have he : ps.countP (fun p => !(trim p.token).isEmpty && emailRegex.test (trim p.token)) ≠
        ps.countP (fun p => !(trim p.token).isEmpty) := by omega
    simp [he]

/-- Witness of C4: the text `a@b.com, bad, c@d.org,` has two valid addresses and
an error message. -/
theorem handleEmailChange_count_witness :
    sampleTokens.all Padded.ok = true ∧
    join [','] (sampleTokens.map Padded.text) = "a@b.com, bad, c@d.org,".toList ∧
    (handleEmailChange "a@b.com, bad, c@d.org,".toList initialState).emailCount = 2 ∧
    (handleEmailChange "a@b.com, bad, c@d.org,".toList initialState).errorMessage ≠ [] := by
  have h := handleEmailChange_count sampleTokens initialState (by decide)
  have ht : join [','] (sampleTokens.map Padded.text) = "a@b.com, bad, c@d.org,".toList := by
    decide
  rw [ht] at h
  refine ⟨by decide, ht, ?_, ?_⟩
  · rw [h.1]; decide
  · rw [h.2.1, h.1]; decide

/-! ## What the address expression accepts -/

/-- A dead expression is not nullable. -/
theorem Regex.dead_not_nullable (r : Regex) (h : r.dead = true) : r.nullable = false := by
  induction r with
  | empty => rfl
  | eps => simp [Regex.dead] at h
  | cls p => rfl
  | seq a b iha ihb =>
    simp only [Regex.dead, Bool.or_eq_true] at h
    rcases h with h | h
    · simp [Regex.nullable, iha h]
    · simp [Regex.nullable, ihb h]
  | alt a b iha ihb =>
    simp only [Regex.dead, Bool.and_eq_true] at h
    simp [Regex.nullable, iha h.1, ihb h.2]
  | star a _ => simp [Regex.dead] at h

/-- A dead expression stays dead after reading a character. -/
theorem Regex.dead_deriv (r : Regex) (c : Char) (h : r.dead = true) :
    (r.deriv c).dead = true := by
  induction r with
  | empty => rfl
  | eps => simp [Regex.dead] at h
  | cls p => simp [Regex.dead] at h
  | seq a b iha ihb =>
    simp only [Regex.dead, Bool.or_eq_true] at h
    rcases h with h | h
    · simp [Regex.deriv, Regex.dead_not_nullable a h, Regex.dead, iha h]
    · cases hn : a.nullable <;> simp [Regex.deriv, hn, Regex.dead, ihb h, h]
  | alt a b iha ihb =>
    simp only [Regex.dead, Bool.and_eq_true] at h
    simp [Regex.deriv, Regex.dead, iha h.1, ihb h.2]
  | star a _ => simp [Regex.dead] at h

/-- A dead expression matches no string. -/
theorem Regex.dead_test (s : Str) : ∀ r : Regex, r.dead = true → r.test s = false := by
  induction s with
  | nil => intro r h; exact Regex.dead_not_nullable r h
  | cons c s ih => intro r h; exact ih (r.deriv c) (Regex.dead_deriv r c h)

/-- Rejection of white space is kept by the derivative. -/
theorem Regex.noSpace_deriv (r : Regex) (c : Char) (h : r.noSpace) : (r.deriv c).noSpace := by
  induction r with
  | empty => trivial
  | eps => trivial
  | cls p => simp only [Regex.deriv]; split <;> trivial
  | seq a b iha ihb =>
    simp only [Regex.deriv]
    split
    · exact ⟨⟨iha h.1, h.2⟩, ihb h.2⟩
    · exact ⟨iha h.1, h.2⟩
  | alt a b iha ihb => exact ⟨iha h.1, ihb h.2⟩
  | star a iha => exact ⟨iha h, h⟩

/-- Reading a white space character kills an expression that rejects white space. -/
theorem Regex.noSpace_dead (r : Regex) (c : Char) (h : r.noSpace)
    (hc : isWhiteSpace c = true) : (r.deriv c).dead = true := by
  induction r with
  | empty => rfl
  | eps => rfl
  | cls p => simp [Regex.deriv, h c hc, Regex.dead]
  | seq a b iha ihb =>
    cases hn : a.nullable <;> simp [Regex.deriv, hn, Regex.dead, iha h.1, ihb h.2]
  | alt a b iha ihb => simp [Regex.deriv, Regex.dead, iha h.1, ihb h.2]
  | star a iha => simp [Regex.deriv, Regex.dead, iha h]

/-- A string matched by an expression that rejects white space has none. -/
theorem Regex.test_noSpace (s : Str) :
    ∀ r : Regex, r.noSpace → r.test s = true → ∀ c ∈ s, isWhiteSpace c = false := by
  induction s with
  | nil => intro r _ _ c hc; simp at hc
  | cons d s ih =>
    intro r hr ht c hc
    have ht2 : (r.deriv d).test s = true := ht
    rcases List.mem_cons.1 hc with rfl | hc
    · cases hw : isWhiteSpace c
      · rfl
      · rw [Regex.dead_test s _ (Regex.noSpace_dead r c hr hw)] at ht2
        exact absurd ht2 (by simp)
    · exact ih (r.deriv d) (Regex.noSpace_deriv r d hr) ht2 c hc

/-- The address expression rejects white space. -/
theorem emailRegex_noSpace : emailRegex.noSpace := by
  have hcls : ∀ c, isWhiteSpace c = true → notSpaceAt c = false := by
    intro c hc; simp [notSpaceAt, hc]
  have hat : ∀ c, isWhiteSpace c = true → (c == '@') = false := by
    intro c hc
    cases h : c == '@'
    · rfl
    · have : c = '@' := by simpa using h
      subst this
      revert hc; decide
  have hdot : ∀ c, isWhiteSpace c = true → (c == '.') = false := by
    intro c hc
    cases h : c == '.'
    · rfl
    · have : c = '.' := by simpa using h
      subst this
      revert hc; decide
  exact ⟨⟨hcls, hcls⟩, hat, ⟨hcls, hcls⟩, hdot, hcls, hcls⟩

/-- An address accepted by the expression has no white space and is not empty. -/
theorem emailRegex_accepts (d : Str) (h : emailRegex.test d = true) :
    (∀ c ∈ d, isWhiteSpace c = false) ∧ d ≠ [] := by
  refine ⟨Regex.test_noSpace d emailRegex emailRegex_noSpace h, ?_⟩
  rintro rfl
  revert h; decide

/-! ## The file handler -/

/-- Insertion into a set, one element after the other, keeps what was inserted
before and adds the first occurrences of the elements not yet present. -/
theorem foldl_insert_eq (xs : List Str) :
    ∀ acc : List Str,
      xs.foldl (fun acc x => if x ∈ acc then acc else acc ++ [x]) acc =
        acc ++ (dedupFirst xs).filter (fun y => decide (y ∉ acc)) := by
  induction xs with
  | nil => intro acc; simp [dedupFirst]
  | cons x xs ih =>
    intro acc
    rw [List.foldl_cons]
    by_cases hx : x ∈ acc
    · rw [if_pos hx, ih acc]
      congr 1
      simp only [dedupFirst, List.filter_cons, hx, not_true_eq_false, decide_False,
        List.filter_filter]
      simp only [Bool.false_eq_true, if_false]
      apply List.filter_congr
      intro y _
      by_cases hy : y ∈ acc
      · simp [hy]
      · have : y ≠ x := fun e => hy (e ▸ hx)
        simp [hy, this]
    · rw [if_neg hx, ih (acc ++ [x])]
      simp only [dedupFirst, List.filter_cons, hx, not_false_eq_true, decide_True,
        List.filter_filter, if_true, List.append_assoc, List.singleton_append]
      congr 2
      apply List.filter_congr
      intro y _
      by_cases hy : y ∈ acc <;> by_cases hyx : y = x <;> simp [hy, hyx]

/-- The spread of a set is the list without its later duplicates. -/
theorem setSpread_eq_dedupFirst (xs : List Str) : setSpread xs = dedupFirst xs := by
  have h := foldl_insert_eq xs []
  simpa [setSpread] using h

/-- Removing duplicates adds no element. -/
theorem mem_of_mem_dedupFirst (xs : List Str) : ∀ d ∈ dedupFirst xs, d ∈ xs := by
  induction xs with
  | nil => intro d hd; simp [dedupFirst] at hd
  | cons x xs ih =>
    intro d hd
    simp only [dedupFirst, List.mem_cons, List.mem_filter] at hd
    rcases hd with rfl | ⟨hd, _⟩
    · simp
    · exact List.mem_cons_of_mem _ (ih d hd)

/-- Every extracted address is a cell accepted by the expression. -/
theorem mem_extracted (jsonData : List (List Str)) :
    ∀ d ∈ dedupFirst ((flat jsonData).filter (fun email => emailRegex.test email)),
      d ∈ flat jsonData ∧ emailRegex.test d = true := by
  intro d hd
  have h := mem_of_mem_dedupFirst _ d hd
  simpa [List.mem_filter] using h

/-- The join of a list that starts with a non-empty string is not empty. -/
theorem join_isEmpty (sep d : Str) (rest : List Str) (hd : d ≠ []) :
    (join sep (d :: rest)).isEmpty = false := by
  cases d with
  | nil => exact absurd rfl hd
  | cons c d =>
    cases rest with
    | nil => simp [join_singleton]
    | cons e rest => simp [join_cons_cons]

/-- The text written by the file handler, by cases on the extracted addresses. -/
theorem emailsWithComma_eq (jsonData : List (List Str)) :
    emailsWithComma jsonData =
      match dedupFirst ((flat jsonData).filter (fun email => emailRegex.test email)) with
      | [] => []
      | a :: as => join ", ".toList (a :: as) ++ [','] := by
  unfold emailsWithComma extractedEmails
  rw [setSpread_eq_dedupFirst]
  have hmem := mem_extracted jsonData
  cases hds : dedupFirst ((flat jsonData).filter (fun email => emailRegex.test email)) with
  | nil => rfl
  | cons a as =>
    rw [hds] at hmem
    have ha : a ≠ [] := (emailRegex_accepts a (hmem a (by simp)).2).2
    simp [join_isEmpty _ a as ha]

/-- C5: the address text written by `reader.onload` depends on the cell values
alone and is the text of the specification: the cells in row-major order that
match `emailRegex`, duplicates removed keeping the first occurrence, joined by
`", "` and followed by one comma, or the empty string when no cell matches.
A sheet with `a@x.com` twice and `bad` once gives `a@x.com,`. -/
theorem onload_text (jsonData : List (List Str)) (s : AppState) :
    (onload jsonData s).emails = normalizedTextSpec jsonData ∧
    (onload [["a@x.com".toList, "bad".toList], ["a@x.com".toList]] s).emails =
      "a@x.com,".toList := by
  refine ⟨?_, ?_⟩
  · simp only [onload, emailsWithComma_eq, normalizedTextSpec, flat]
  · show emailsWithComma [["a@x.com".toList, "bad".toList], ["a@x.com".toList]] =
      "a@x.com,".toList
    decide

/-- The pieces of the text written by the file handler, when no address has a
comma: the first address, the other addresses each after one space, and the
empty piece after the trailing comma. -/
theorem split_text (rest : List Str) :
    ∀ d : Str, (∀ x ∈ d :: rest, ',' ∉ x) →
      split ',' (join ", ".toList (d :: rest) ++ [',']) =
        d :: rest.map (fun x => ' ' :: x) ++ [[]] := by
  induction rest with
  | nil =>
    intro d h
    rw [join_singleton, split_append_sep ',' d [] (h d (by simp))]
    rfl
  | cons e rest ih =>
    intro d h
    have hd : ',' ∉ d := h d (by simp)
    have hrest : ∀ x ∈ e :: rest, ',' ∉ x := fun x hx => h x (List.mem_cons_of_mem _ hx)
    have hshape : join ", ".toList (d :: e :: rest) ++ [','] =
        d ++ ',' :: (' ' :: (join ", ".toList (e :: rest) ++ [','])) := by
      rw [join_cons_cons]
      simp
    rw [hshape, split_append_sep ',' d _ hd]
    have hsp : split ',' (' ' :: (join ", ".toList (e :: rest) ++ [','])) =
        (' ' :: e) :: rest.map (fun x => ' ' :: x) ++ [[]] := by
      have hne : (' ' : Char) ≠ ',' := by decide
      rw [split, if_neg hne, ih e hrest]
      rfl
    rw [hsp]
    rfl

/-- A piece made of one space and an address counts as that address. -/
theorem test_trim_space (x : Str) (h : emailRegex.test x = true) :
    emailRegex.test (trim x) = true ∧ emailRegex.test (trim (' ' :: x)) = true := by
  have hx := trim_of_no_space x (emailRegex_accepts x h).1
  have hsp : trim (' ' :: x) = trim x := by
    have := trim_padded [' '] x [] (by decide) (by decide)
    simpa using this
  rw [hsp, hx]
  exact ⟨h, h⟩

/-- C10 as stated fails: the cell `a@b,c.d` matches `emailRegex` and is the one
address extracted, the text written is `a@b,c.d,`, and the count set by the
handler is 0, since neither `a@b` nor `c.d` matches. -/
theorem comma_cell_not_counted :
    emailRegex.test "a@b,c.d".toList = true ∧
    (onload [["a@b,c.d".toList]] initialState).emails = "a@b,c.d,".toList ∧
    (onload [["a@b,c.d".toList]] initialState).emailCount = 0 ∧
    (setSpread ((flat [["a@b,c.d".toList]]).filter
      (fun email => emailRegex.test email))).length = 1 := by
  decide

/-- C10, amended: when no cell that matches `emailRegex` contains a comma, the
count set by `reader.onload` is the number of distinct addresses extracted
into the text. -/
theorem onload_count (jsonData : List (List Str)) (s : AppState)
    (hcomma : ∀ cell ∈ flat jsonData, emailRegex.test cell = true → ',' ∉ cell) :
    (onload jsonData s).emailCount =
      (setSpread ((flat jsonData).filter (fun email => emailRegex.test email))).length := by
  have hmem := mem_extracted jsonData
  simp only [onload, emailsWithComma_eq, setSpread_eq_dedupFirst]
  cases hds : dedupFirst ((flat jsonData).filter (fun email => emailRegex.test email)) with
  | nil => decide
  | cons d rest =>
    rw [hds] at hmem
    have hsep : ∀ x ∈ d :: rest, ',' ∉ x := fun x hx => hcomma x (hmem x hx).1 (hmem x hx).2
    simp only []
    rw [split_text rest d hsep, List.filter_append, List.length_append]
    have hall : (d :: rest.map (fun x => ' ' :: x)).filter
        (fun email => emailRegex.test (trim email)) = d :: rest.map (fun x => ' ' :: x) := by
      apply List.filter_eq_self.2
      intro x hx
      rcases List.mem_cons.1 hx with rfl | hx
      · exact (test_trim_space x (hmem x (by simp)).2).1
      · obtain ⟨y, hy, rfl⟩ := List.mem_map.1 hx
        exact (test_trim_space y (hmem y (List.mem_cons_of_mem _ hy)).2).2
    have hlast : ([[]] : List Str).filter (fun email => emailRegex.test (trim email)) = [] := by
      decide
    rw [hall, hlast]
    simp

/-- Witness of the amended C10: a sheet with `a@x.com` twice, `bad` once and
`c@d.org` once has no comma in its addresses; the count is 2. -/
theorem onload_count_witness :
    (∀ cell ∈ flat [["a@x.com".toList, "bad".toList], ["a@x.com".toList, "c@d.org".toList]],
      emailRegex.test cell = true → ',' ∉ cell) ∧
    (onload [["a@x.com".toList, "bad".toList], ["a@x.com".toList, "c@d.org".toList]]
      initialState).emailCount = 2 := by
  have h := onload_count
    [["a@x.com".toList, "bad".toList], ["a@x.com".toList, "c@d.org".toList]]
    initialState (by decide)
  refine ⟨by decide, ?_⟩
  rw [h]
  decide

end BulkEmail
